import Mathlib

/-
  Verification development for the betalain colorimeter simulator
  (src/app.js). The quantitative core of the program is shallowly
  embedded below: real-number functions mirror the JavaScript number
  computations, lists mirror JS arrays, and the random source is
  modelled as explicit sample arguments / lists of draws.
-/

namespace Colorimetry

/-! ## Spectral and absorbance model (src/app.js lines 9-16, 57-75) -/

/-- Peak wavelength in nm (LAMBDA_PEAK_NM, app.js line 9). -/
def LAMBDA_PEAK_NM : ℝ := 538

/-- Peak molar absorptivity (EPSILON_MAX, app.js line 10). -/
def EPSILON_MAX : ℝ := 60000

/-- Spectral width, standard deviation (SPECTRUM_SIGMA_NM, app.js line 11). -/
def SPECTRUM_SIGMA_NM : ℝ := 35

/-- Baseline molar absorptivity (BASELINE_EPSILON, app.js line 12). -/
def BASELINE_EPSILON : ℝ := 150

/-- Absorbance noise standard deviation (NOISE_STD_A, app.js line 15). -/
def NOISE_STD_A : ℝ := 0.005

/-- Normalized detector output for zero absorbance (DETECTOR_MAX, app.js line 16). -/
def DETECTOR_MAX : ℝ := 1.0

/-- Unnormalized Gaussian bump (function gaussian, app.js lines 57-60). -/
noncomputable def gaussian (x mu sigma : ℝ) : ℝ :=
  let a := (x - mu) / sigma
  Real.exp (-0.5 * a * a)

/-- Molar absorptivity at a wavelength: Gaussian peak plus baseline
(function epsilonAt, app.js lines 62-65). -/
noncomputable def epsilonAt (lambdaNm : ℝ) : ℝ :=
  EPSILON_MAX * gaussian lambdaNm LAMBDA_PEAK_NM SPECTRUM_SIGMA_NM + BASELINE_EPSILON

/-- Beer-Lambert absorbance; concentration is given in mM and converted
to M by dividing by 1000 (function absorbance, app.js lines 67-70). -/
noncomputable def absorbance (lambdaNm c_mM l_cm : ℝ) : ℝ :=
  let c_M := c_mM / 1000
  epsilonAt lambdaNm * c_M * l_cm

/-- Transmittance from absorbance, T = 10^(-A)
(function transmittanceFromA, app.js lines 72-75). -/
noncomputable def transmittanceFromA (A : ℝ) : ℝ :=
  (10 : ℝ) ^ (-A)

/-! ## Recorded (clamped, optionally noisy) measurements

Every site of the program that records or displays a measured
absorbance computes `Math.max(0, noiseToggle.checked ? Atrue +
randn()*NOISE_STD_A : Atrue)`.  The Gaussian sample `randn()` is made
an explicit argument `nu`. -/

/-- Clamped, optionally noisy measured absorbance from a true
absorbance and a standard-normal sample. This is the shared shape of
app.js lines 293-295 (updateAll), 460-462 (measure button), 494-495
and 505-506 (unknown-sample button) and 685-686 (auto calibration). -/
noncomputable def recordedA (trueA nu : ℝ) (noiseOn : Bool) : ℝ :=
  max 0 (if noiseOn then trueA + nu * NOISE_STD_A else trueA)

/-- Live-readout absorbance (updateAll, app.js lines 288-297). -/
noncomputable def updateAllA (lam c_mM nu : ℝ) (noiseOn : Bool) : ℝ :=
  recordedA (absorbance lam c_mM 1) nu noiseOn

/-- Absorbance recorded by the measure button (app.js lines 456-463). -/
noncomputable def measureA (lam c_mM nu : ℝ) (noiseOn : Bool) : ℝ :=
  recordedA (absorbance lam c_mM 1) nu noiseOn

/-- Absorbance recorded by one auto-calibration step (app.js lines 685-686). -/
noncomputable def autoCalibrateA (lam c_mM nu : ℝ) (noiseOn : Bool) : ℝ :=
  recordedA (absorbance lam c_mM 1) nu noiseOn

/-- Absorbance recorded for a seeded calibration point in the
unknown-sample handler (app.js lines 494-495). -/
noncomputable def unknownSeedA (lam c_mM nu : ℝ) (noiseOn : Bool) : ℝ :=
  recordedA (absorbance lam c_mM 1) nu noiseOn

/-- Measured absorbance of the unknown probe (app.js lines 505-506). -/
noncomputable def unknownProbeA (lam cUnknown nu : ℝ) (noiseOn : Bool) : ℝ :=
  recordedA (absorbance lam cUnknown 1) nu noiseOn

/-! ## Bleaching tick (startBleaching, app.js lines 628-641) -/

/-- One bleaching tick: the current concentration is multiplied by
exp(-k * dt) where dt is the elapsed time since the previous tick in
minutes (app.js line 633). -/
noncomputable def bleachTick (c k dt_min : ℝ) : ℝ :=
  c * Real.exp (-k * dt_min)

/-! ## Theorems for the absorbance model claims -/

/-- C1: absorbance(lambda, c, l) equals epsilonAt(lambda) * (c/1000) * l
with epsilonAt(lambda) = 60000 * exp(-0.5*((lambda-538)/35)^2) + 150,
and at lambda = 538 nm, c = 0.5 mM, l = 1 cm the absorbance is exactly
60150 * 0.0005 * 1 = 30.075. -/
theorem C1_beer_lambert :
    (∀ lam c l : ℝ, absorbance lam c l =
      (60000 * Real.exp (-(0.5) * ((lam - 538) / 35) ^ 2) + 150) * (c / 1000) * l) ∧
    absorbance 538 0.5 1 = 30.075 := by
  constructor
  · intro lam c l
    unfold absorbance epsilonAt gaussian
    unfold EPSILON_MAX LAMBDA_PEAK_NM SPECTRUM_SIGMA_NM BASELINE_EPSILON
    have h : -0.5 * ((lam - 538) / 35) * ((lam - 538) / 35)
        = -(0.5) * ((lam - 538) / 35) ^ 2 := by ring
    show (60000 * Real.exp (-0.5 * ((lam - 538) / 35) * ((lam - 538) / 35)) + 150)
        * (c / 1000) * l = _
    rw [h]
  · unfold absorbance epsilonAt gaussian
    unfold EPSILON_MAX LAMBDA_PEAK_NM SPECTRUM_SIGMA_NM BASELINE_EPSILON
    norm_num

/-- C5 counterexample: the absorbance function does not clamp negative
concentrations; at lambda = 538, c = -1 mM, l = 1 cm it returns -60.15,
not 0. -/
theorem C5_counterexample :
    absorbance 538 (-1) 1 = -60.15 ∧ absorbance 538 (-1) 1 ≠ 0 := by
  have h : absorbance 538 (-1) 1 = -60.15 := by
    unfold absorbance epsilonAt gaussian
    unfold EPSILON_MAX LAMBDA_PEAK_NM SPECTRUM_SIGMA_NM BASELINE_EPSILON
    norm_num
  exact ⟨h, by rw [h]; norm_num⟩

/-- Molar absorptivity is always strictly positive. -/
theorem epsilonAt_pos (lam : ℝ) : 0 < epsilonAt lam := by
  unfold epsilonAt gaussian EPSILON_MAX BASELINE_EPSILON
  have h := Real.exp_pos (-0.5 * ((lam - LAMBDA_PEAK_NM) / SPECTRUM_SIGMA_NM)
    * ((lam - LAMBDA_PEAK_NM) / SPECTRUM_SIGMA_NM))
  nlinarith

/-- C5 amended: absorbance itself does not clamp: it is 0 at
concentration 0, it is nonpositive for every concentration c ≤ 0 (with
nonnegative path length), and the clamped measurement the callers
actually record (max(0, .), here with noise disabled) is exactly 0 for
c ≤ 0. -/
theorem C5_clamped_at_callers (lam c l nu : ℝ) (hc : c ≤ 0) (hl : 0 ≤ l) :
    absorbance lam 0 l = 0 ∧ absorbance lam c l ≤ 0 ∧
    recordedA (absorbance lam c l) nu false = 0 := by
  have hA : absorbance lam c l ≤ 0 := by
    unfold absorbance
    have hε := epsilonAt_pos lam
    have h1 : epsilonAt lam * (c / 1000) ≤ 0 := by
      apply mul_nonpos_of_nonneg_of_nonpos (le_of_lt hε)
      linarith
    exact mul_nonpos_of_nonpos_of_nonneg h1 hl
  refine ⟨by unfold absorbance; ring, hA, ?_⟩
  unfold recordedA
  simp only [Bool.false_eq_true, if_false]
  exact max_eq_left hA

/-- C5 witness: the amended statement instantiated at lambda = 538,
c = -1 mM, l = 1 cm, noise sample 0. -/
theorem C5_clamped_at_callers_witness :
    absorbance 538 0 1 = 0 ∧ absorbance 538 (-1) 1 ≤ 0 ∧
    recordedA (absorbance 538 (-1) 1) 0 false = 0 :=
  C5_clamped_at_callers 538 (-1) 1 0 (by norm_num) (by norm_num)

/-- C6: each bleaching tick multiplies the current concentration by
exp(-k * dt) with dt in minutes; a single 10-minute tick with
k = 0.1 per minute from 1.0 mM gives exp(-1), which is within 0.001
of 0.3679. -/
theorem C6_bleach_tick :
    (∀ c k dt : ℝ, bleachTick c k dt = c * Real.exp (-k * dt)) ∧
    bleachTick 1 0.1 10 = Real.exp (-1) ∧
    |bleachTick 1 0.1 10 - 0.3679| < 0.001 := by
  have hval : bleachTick 1 0.1 10 = Real.exp (-1) := by
    unfold bleachTick
    norm_num
  refine ⟨fun c k dt => rfl, hval, ?_⟩
  rw [hval, Real.exp_neg]
  have h1 := Real.exp_one_gt_d9
  have h2 := Real.exp_one_lt_d9
  have hpos : (0 : ℝ) < Real.exp 1 := Real.exp_pos 1
  rw [abs_lt]
  constructor
  · have : (Real.exp 1)⁻¹ > (2.7182818286 : ℝ)⁻¹ := by
      apply inv_lt_inv_of_lt hpos h2
    nlinarith
  · have : (Real.exp 1)⁻¹ < (2.7182818283 : ℝ)⁻¹ := by
      apply inv_lt_inv_of_lt (by norm_num) h1
    nlinarith

/-- C8: every measurement-producing site (live readout, measure
button, auto-calibration step, unknown-sample seeds and probe) clamps
with max(0, .) before recording, so the recorded absorbance is always
nonnegative. -/
theorem C8_recorded_nonneg (lam c nu : ℝ) (noiseOn : Bool) :
    0 ≤ updateAllA lam c nu noiseOn ∧
    0 ≤ measureA lam c nu noiseOn ∧
    0 ≤ autoCalibrateA lam c nu noiseOn ∧
    0 ≤ unknownSeedA lam c nu noiseOn ∧
    0 ≤ unknownProbeA lam c nu noiseOn :=
  ⟨le_max_left 0 _, le_max_left 0 _, le_max_left 0 _, le_max_left 0 _, le_max_left 0 _⟩

/-! ## Calibration engine (app.js lines 82, 166-180, 201-216, 516-518)

The regression runs on JavaScript numbers; it is embedded here over the
exact rationals, so every arithmetic identity of the source holds
exactly.  The guarded divisions of the source are embedded with the
same guards. -/

/-- Point shape handed to linearRegression, app.js line 202 and 516. -/
structure PtXY where
  x : ℚ
  y : ℚ
deriving DecidableEq

/-- Result of linearRegression, app.js line 179. -/
structure LinFit where
  m : ℚ
  b : ℚ
  r2 : ℚ
deriving DecidableEq

/-- Accumulated sum of x (the sumx loop variable, app.js lines 169-172). -/
def sumx (ps : List PtXY) : ℚ := (ps.map fun p => p.x).sum

/-- Accumulated sum of y (the sumy loop variable, app.js lines 169-172). -/
def sumy (ps : List PtXY) : ℚ := (ps.map fun p => p.y).sum

/-- Accumulated sum of x*y (the sumxy loop variable, app.js lines 169-172). -/
def sumxy (ps : List PtXY) : ℚ := (ps.map fun p => p.x * p.y).sum

/-- Accumulated sum of x*x (the sumx2 loop variable, app.js lines 169-172). -/
def sumx2 (ps : List PtXY) : ℚ := (ps.map fun p => p.x * p.x).sum

/-- Accumulated sum of y*y (the sumy2 loop variable, app.js lines 169-172). -/
def sumy2 (ps : List PtXY) : ℚ := (ps.map fun p => p.y * p.y).sum

/-- Ordinary least squares fit (function linearRegression, app.js
lines 166-180).  The source computes r = r_num / Math.sqrt(rden2) under
the guard sqrt(rden2) !== 0 and reports r*r; since rden2 ≥ 0 always
(Cauchy-Schwarz) and sqrt vanishes exactly on 0, the reported r*r is
exactly r_num^2 / rden2 under the guard rden2 ≠ 0, which is how it is
embedded here. -/
def linearRegression (points : List PtXY) : LinFit :=
  if points.length < 2 then ⟨0, 0, 0⟩ else
  let n : ℚ := points.length
  let sx := sumx points
  let sy := sumy points
  let sxy := sumxy points
  let sx2 := sumx2 points
  let sy2 := sumy2 points
  let denom := n * sx2 - sx * sx
  let m := if denom ≠ 0 then (n * sxy - sx * sy) / denom else 0
  let b := (sy - m * sx) / n
  let r_num := n * sxy - sx * sy
  let rden2 := (n * sx2 - sx * sx) * (n * sy2 - sy * sy)
  let r2 := if rden2 ≠ 0 then r_num * r_num / rden2 else 0
  ⟨m, b, r2⟩

/-- Inversion of the fit to estimate a concentration (app.js line 518:
c_est = m !== 0 ? (A_meas - b) / m : 0). -/
def estimateConcentration (A_meas : ℚ) (fit : LinFit) : ℚ :=
  if fit.m ≠ 0 then (A_meas - fit.b) / fit.m else 0

/-- Entry of calibrationData (app.js line 82): concentration,
absorbance, and the _temp flag carried by unknown-probe points
(app.js line 511; absent, i.e. false, on ordinary points). -/
structure CalPoint (F : Type) where
  c_mM : F
  A : F
  temp : Bool
deriving DecidableEq

/-- Fit computed and reported by updateCalibrationPlot (app.js lines
201-216): the regression runs on all of calibrationData, with no
filtering of temporary points (line 202). -/
def displayedFit (data : List (CalPoint ℚ)) : LinFit :=
  linearRegression (data.map fun d => ⟨d.c_mM, d.A⟩)

/-- Fit used by the unknown-sample handler to estimate the unknown
concentration (app.js line 516): the regression runs on the points
with the _temp flag filtered out. -/
def estimationFit (data : List (CalPoint ℚ)) : LinFit :=
  linearRegression ((data.filter fun p => !p.temp).map fun d => ⟨d.c_mM, d.A⟩)

/-- C2 counterexample: on the calibration set {(0,0), (1,1),
(2,0,temporary)}, the fit updateCalibrationPlot computes and reports
(over all points, temporary included) differs from the
ordinary-least-squares fit over the non-temporary points, so adding a
temporary probe point does change a fit the program reports. -/
theorem C2_counterexample :
    displayedFit [⟨0, 0, false⟩, ⟨1, 1, false⟩, ⟨2, 0, true⟩] ≠
    estimationFit [⟨0, 0, false⟩, ⟨1, 1, false⟩, ⟨2, 0, true⟩] := by
  have h1 : displayedFit [⟨0, 0, false⟩, ⟨1, 1, false⟩, ⟨2, 0, true⟩]
      = ⟨0, 1/3, 0⟩ := by
    unfold displayedFit linearRegression sumx sumy sumxy sumx2 sumy2
    norm_num
  have h2 : estimationFit [⟨0, 0, false⟩, ⟨1, 1, false⟩, ⟨2, 0, true⟩]
      = ⟨1, 0, 1⟩ := by
    unfold estimationFit linearRegression sumx sumy sumxy sumx2 sumy2
    norm_num [List.filter]
  rw [h1, h2]
  simp only [ne_eq, LinFit.mk.injEq, not_and]
  intro h
  norm_num at h

/-- C2 amended: only the fit used for unknown-concentration estimation
(app.js line 516) filters temporary points; that fit is unchanged by
appending a temporary probe point.  The fit updateCalibrationPlot
displays runs over all points including temporary ones. -/
theorem C2_estimation_fit_ignores_temp (data : List (CalPoint ℚ))
    (probe : CalPoint ℚ) (h : probe.temp = true) :
    estimationFit (data ++ [probe]) = estimationFit data := by
  unfold estimationFit
  rw [List.filter_append]
  have hnil : List.filter (fun p => !p.temp) [probe] = [] := by
    simp [List.filter_singleton, h]
  rw [hnil, List.append_nil]

/-- C2 witness: the amended statement at a concrete set and probe. -/
theorem C2_estimation_fit_ignores_temp_witness :
    estimationFit ([⟨0, 0, false⟩] ++ [⟨1, 1, true⟩]) =
    estimationFit [⟨0, 0, false⟩] :=
  C2_estimation_fit_ignores_temp [⟨0, 0, false⟩] ⟨1, 1, true⟩ rfl

/-- C3: with fewer than 2 non-temporary points the regression returns
the degenerate zero fit {m 0, b 0, r2 0}, and estimating any measured
absorbance with that fit returns 0. -/
theorem C3_degenerate_zero_fit (data : List (CalPoint ℚ)) (A : ℚ)
    (h : (data.filter fun p => !p.temp).length < 2) :
    estimationFit data = ⟨0, 0, 0⟩ ∧
    estimateConcentration A (estimationFit data) = 0 := by
  have hfit : estimationFit data = ⟨0, 0, 0⟩ := by
    unfold estimationFit linearRegression
    simp only [List.length_map]
    rw [if_pos h]
  refine ⟨hfit, ?_⟩
  rw [hfit]
  unfold estimateConcentration
  norm_num

/-- C3 witness: a single-point calibration set and absorbance 5. -/
theorem C3_degenerate_zero_fit_witness :
    estimationFit [⟨1, 2, false⟩] = ⟨0, 0, 0⟩ ∧
    estimateConcentration 5 (estimationFit [⟨1, 2, false⟩]) = 0 :=
  C3_degenerate_zero_fit [⟨1, 2, false⟩] 5 (by decide)

/-! ## Exact recovery of a linear relationship (claim C4)

The lemmas below establish that the slope denominator n*Σx² - (Σx)²
is the list variance expression, nonnegative always and strictly
positive as soon as two x values differ. -/

/-- Proof-side abbreviation: the slope denominator of linearRegression
written over the list of x values alone. -/
def varDen (xs : List ℚ) : ℚ :=
  (xs.length : ℚ) * (xs.map fun x => x * x).sum - xs.sum * xs.sum

/-- Expansion of a sum of shifted squares. -/
lemma sum_sq_sub (a : ℚ) (l : List ℚ) :
    (l.map fun x => (x - a) ^ 2).sum
      = (l.map fun x => x * x).sum - 2 * a * l.sum + l.length * a ^ 2 := by
  induction l with
  | nil => simp
  | cons b t ih =>
      simp only [List.map_cons, List.sum_cons, List.length_cons, ih]
      push_cast
      ring

/-- Recurrence for the slope denominator when one value is prepended. -/
lemma varDen_cons (a : ℚ) (l : List ℚ) :
    varDen (a :: l) = varDen l + (l.map fun x => (x - a) ^ 2).sum := by
  unfold varDen
  simp only [List.map_cons, List.sum_cons, List.length_cons, sum_sq_sub]
  push_cast
  ring

/-- The slope denominator is never negative. -/
lemma varDen_nonneg (l : List ℚ) : 0 ≤ varDen l := by
  induction l with
  | nil => simp [varDen]
  | cons a t ih =>
      rw [varDen_cons]
      have hs : 0 ≤ (t.map fun x => (x - a) ^ 2).sum := by
        apply List.sum_nonneg
        intro x hx
        obtain ⟨y, _, rfl⟩ := List.mem_map.mp hx
        positivity
      linarith

/-- The slope denominator is strictly positive as soon as the list
holds two different values. -/
lemma varDen_pos (l : List ℚ) (h : ∃ a ∈ l, ∃ b ∈ l, a ≠ b) : 0 < varDen l := by
  induction l with
  | nil => simp at h
  | cons c t ih =>
      rw [varDen_cons]
      have hnn : ∀ x ∈ t.map fun y => (y - c) ^ 2, (0:ℚ) ≤ x := by
        intro x hx
        obtain ⟨y, _, rfl⟩ := List.mem_map.mp hx
        positivity
      obtain ⟨a, ha, b, hb, hab⟩ := h
      rcases List.mem_cons.mp ha with ha1 | hat
      · rcases List.mem_cons.mp hb with hb1 | hbt
        · exact absurd (ha1.trans hb1.symm) hab
        · have hmem : (b - c) ^ 2 ∈ t.map fun y => (y - c) ^ 2 :=
            List.mem_map_of_mem _ hbt
          have hle := List.single_le_sum hnn _ hmem
          have hbc : b - c ≠ 0 := sub_ne_zero.mpr (ha1 ▸ hab.symm)
          have hpos : (0:ℚ) < (b - c) ^ 2 :=
            lt_of_le_of_ne (sq_nonneg _) (Ne.symm (pow_ne_zero 2 hbc))
          have := varDen_nonneg t
          linarith
      · rcases List.mem_cons.mp hb with hb1 | hbt
        · have hmem : (a - c) ^ 2 ∈ t.map fun y => (y - c) ^ 2 :=
            List.mem_map_of_mem _ hat
          have hle := List.single_le_sum hnn _ hmem
          have hac : a - c ≠ 0 := sub_ne_zero.mpr (hb1 ▸ hab)
          have hpos : (0:ℚ) < (a - c) ^ 2 :=
            lt_of_le_of_ne (sq_nonneg _) (Ne.symm (pow_ne_zero 2 hac))
          have := varDen_nonneg t
          linarith
        · have hsum := List.sum_nonneg hnn
          have := ih ⟨a, hat, b, hbt, hab⟩
          linarith

/-- The slope denominator of linearRegression equals varDen of the
projected x list. -/
lemma varDen_eq (points : List PtXY) :
    varDen (points.map fun p => p.x)
      = (points.length : ℚ) * sumx2 points - sumx points * sumx points := by
  unfold varDen sumx sumx2
  rw [List.map_map, List.length_map]
  rfl

/-- Head expansion of sumx. -/
lemma sumx_cons (p : PtXY) (t : List PtXY) : sumx (p :: t) = p.x + sumx t := by
  simp [sumx]

/-- Head expansion of sumy. -/
lemma sumy_cons (p : PtXY) (t : List PtXY) : sumy (p :: t) = p.y + sumy t := by
  simp [sumy]

/-- Head expansion of sumxy. -/
lemma sumxy_cons (p : PtXY) (t : List PtXY) :
    sumxy (p :: t) = p.x * p.y + sumxy t := by
  simp [sumxy]

/-- Head expansion of sumx2. -/
lemma sumx2_cons (p : PtXY) (t : List PtXY) :
    sumx2 (p :: t) = p.x * p.x + sumx2 t := by
  simp [sumx2]

/-- On points lying exactly on y = m0 x + b0, the accumulated sums of
y and of x*y collapse to linear combinations of the x sums. -/
lemma sums_on_line (m0 b0 : ℚ) (ps : List PtXY)
    (h : ∀ p ∈ ps, p.y = m0 * p.x + b0) :
    sumy ps = m0 * sumx ps + ps.length * b0 ∧
    sumxy ps = m0 * sumx2 ps + b0 * sumx ps := by
  induction ps with
  | nil => simp [sumx, sumy, sumxy, sumx2]
  | cons p t ih =>
      have hp := h p (List.mem_cons_self p t)
      have ht : ∀ q ∈ t, q.y = m0 * q.x + b0 :=
        fun q hq => h q (List.mem_cons_of_mem p hq)
      obtain ⟨ih1, ih2⟩ := ih ht
      constructor
      · rw [sumy_cons, sumx_cons, ih1, hp]
        push_cast [List.length_cons]
        ring
      · rw [sumxy_cons, sumx2_cons, sumx_cons, ih2, hp]
        ring

/-- A list of at least two points with pairwise distinct x values
yields two different x values. -/
lemma exists_two_ne (points : List PtXY) (hlen : 2 ≤ points.length)
    (hdist : points.Pairwise fun p q => p.x ≠ q.x) :
    ∃ a ∈ points.map fun p => p.x, ∃ b ∈ points.map fun p => p.x, a ≠ b := by
  rcases points with _ | ⟨p, t⟩
  · simp at hlen
  rcases t with _ | ⟨q, rest⟩
  · simp at hlen
  have hpq : p.x ≠ q.x := (List.pairwise_cons.mp hdist).1 q (List.mem_cons_self q rest)
  refine ⟨p.x, ?_, q.x, ?_, hpq⟩
  · exact List.mem_map_of_mem _ (List.mem_cons_self _ _)
  · exact List.mem_map_of_mem _ (List.mem_cons_of_mem _ (List.mem_cons_self _ _))

/-- C4: for at least two points with pairwise distinct x values lying
exactly on the line y = m0 x + b0 with m0 ≠ 0, the regression recovers
slope m0 and intercept b0 exactly, and estimating from the fitted line
returns every concentration used to build the fit. -/
theorem C4_roundtrip (points : List PtXY) (m0 b0 : ℚ)
    (hlen : 2 ≤ points.length)
    (hline : ∀ p ∈ points, p.y = m0 * p.x + b0)
    (hdist : points.Pairwise fun p q => p.x ≠ q.x)
    (hm : m0 ≠ 0) :
    (linearRegression points).m = m0 ∧ (linearRegression points).b = b0 ∧
    ∀ c ∈ points.map fun p => p.x,
      estimateConcentration (m0 * c + b0) (linearRegression points) = c := by
  obtain ⟨hsy, hsxy⟩ := sums_on_line m0 b0 points hline
  have hDpos : 0 < (points.length : ℚ) * sumx2 points - sumx points * sumx points := by
    rw [← varDen_eq]
    exact varDen_pos _ (exists_two_ne points hlen hdist)
  have hD : ((points.length : ℚ) * sumx2 points - sumx points * sumx points) ≠ 0 :=
    ne_of_gt hDpos
  have hn : (points.length : ℚ) ≠ 0 := by
    have h2 : (2 : ℚ) ≤ (points.length : ℚ) := by exact_mod_cast hlen
    linarith
  have hnotlt : ¬ points.length < 2 := not_lt_of_ge hlen
  have hm_eq : (linearRegression points).m = m0 := by
    simp only [linearRegression, hnotlt, if_false]
    rw [if_pos hD]
    rw [hsxy, hsy]
    have hkey : (points.length : ℚ) * (m0 * sumx2 points + b0 * sumx points)
        - sumx points * (m0 * sumx points + (points.length : ℚ) * b0)
        = m0 * ((points.length : ℚ) * sumx2 points - sumx points * sumx points) := by
      ring
    rw [hkey, mul_div_cancel_right₀ _ hD]
  have hb_eq : (linearRegression points).b = b0 := by
    simp only [linearRegression, hnotlt, if_false]
    rw [if_pos hD]
    rw [hsxy, hsy]
    have hkey : (points.length : ℚ) * (m0 * sumx2 points + b0 * sumx points)
        - sumx points * (m0 * sumx points + (points.length : ℚ) * b0)
        = m0 * ((points.length : ℚ) * sumx2 points - sumx points * sumx points) := by
      ring
    rw [hkey, mul_div_cancel_right₀ _ hD]
    field_simp
  refine ⟨hm_eq, hb_eq, ?_⟩
  intro c _
  unfold estimateConcentration
  rw [hm_eq, hb_eq, if_pos hm]
  field_simp

/-- C4 witness: the points (0,1) and (1,3) on the line y = 2x + 1. -/
theorem C4_roundtrip_witness :
    (linearRegression [⟨0, 1⟩, ⟨1, 3⟩]).m = 2 ∧
    (linearRegression [⟨0, 1⟩, ⟨1, 3⟩]).b = 1 ∧
    ∀ c ∈ ([⟨0, 1⟩, ⟨1, 3⟩] : List PtXY).map fun p => p.x,
      estimateConcentration (2 * c + 1) (linearRegression [⟨0, 1⟩, ⟨1, 3⟩]) = c :=
  C4_roundtrip [⟨0, 1⟩, ⟨1, 3⟩] 2 1 (by decide)
    (by intro p hp; fin_cases hp <;> norm_num)
    (by simp [List.pairwise_cons])
    (by norm_num)

/-! ## Bleaching time series (startBleaching, app.js lines 618-642)

Each tick pushes one point onto timeSeries and, when the length then
exceeds 600, shifts off the oldest point (app.js lines 637-638). -/

/-- Entry of timeSeries (app.js line 83): elapsed minutes and
concentration in mM. -/
structure TSPoint where
  t_min : ℝ
  c_mM : ℝ

/-- One tick of time-series bookkeeping: push the new point, then
shift off the head when the length exceeds 600 (app.js lines 637-638). -/
def pushCapped (l : List TSPoint) (p : TSPoint) : List TSPoint :=
  let l2 := l ++ [p]
  if l2.length > 600 then l2.tail else l2

/-- Repeated ticks: fold pushCapped over a sequence of appended points. -/
def appendAll (l : List TSPoint) (xs : List TSPoint) : List TSPoint :=
  xs.foldl pushCapped l

/-- From any starting series of at most 600 points, folding in further
points keeps exactly the most recent 600 of the concatenation, in
order. -/
lemma appendAll_eq (xs : List TSPoint) : ∀ acc : List TSPoint, acc.length ≤ 600 →
    appendAll acc xs = (acc ++ xs).drop (acc.length + xs.length - 600) := by
  induction xs with
  | nil =>
      intro acc hacc
      have h0 : acc.length + ([] : List TSPoint).length - 600 = 0 := by
        simp
        omega
      rw [h0]
      simp [appendAll]
  | cons a t ih =>
      intro acc hacc
      show appendAll (pushCapped acc a) t = _
      by_cases hlt : acc.length + 1 ≤ 600
      · have hpush : pushCapped acc a = acc ++ [a] := by
          unfold pushCapped
          rw [if_neg]
          simp only [List.length_append, List.length_cons, List.length_nil]
          omega
        rw [hpush, ih (acc ++ [a]) (by simp; omega)]
        have hlist : (acc ++ [a]) ++ t = acc ++ (a :: t) := by
          simp [List.append_assoc]
        have hnum : (acc ++ [a]).length + t.length - 600
            = acc.length + (a :: t).length - 600 := by
          simp [List.length_append]
          omega
        rw [hlist, hnum]
      · have h600 : acc.length = 600 := by omega
        rcases acc with _ | ⟨h0, t0⟩
        · simp at h600
        have hpush : pushCapped (h0 :: t0) a = t0 ++ [a] := by
          unfold pushCapped
          rw [if_pos]
          · rfl
          · simp only [List.length_append, List.length_cons, List.length_nil]
            simp at h600
            omega
        have ht0len : t0.length = 599 := by simp at h600; omega
        rw [hpush, ih (t0 ++ [a]) (by simp [ht0len])]
        have hnum : (t0 ++ [a]).length + t.length - 600 = t.length := by
          simp [ht0len]
        have hnum2 : (h0 :: t0).length + (a :: t).length - 600 = t.length + 1 := by
          simp [ht0len]
        rw [hnum, hnum2]
        have hlist : (t0 ++ [a]) ++ t = t0 ++ (a :: t) := by
          simp [List.append_assoc]
        rw [hlist]
        rw [show (h0 :: t0) ++ (a :: t) = h0 :: (t0 ++ (a :: t)) from rfl]
        rw [List.drop_succ_cons]

/-- C7: the time series never holds more than 600 points and eviction
is FIFO: after appending any sequence of points to an empty series,
exactly the most recent 600 remain, in oldest-first insertion order;
in particular after 650 points exactly the last 600 remain. -/
theorem C7_fifo_cap (xs : List TSPoint) :
    appendAll [] xs = xs.drop (xs.length - 600) ∧
    (appendAll [] xs).length = min xs.length 600 := by
  have h := appendAll_eq xs [] (by simp)
  simp only [List.nil_append, List.length_nil, Nat.zero_add] at h
  refine ⟨h, ?_⟩
  rw [h, List.length_drop]
  omega

/-! ## Normal-variate generator (randn, app.js lines 309-314)

Math.random returns draws in [0,1). The two resampling while-loops are
modelled on explicit lists of available draws: the loop consumes draws
until the first nonzero one (and the source would spin forever on an
all-zero stream, which the Option models as none). -/

/-- First nonzero draw of a stream of uniform draws: the value the
while-loop `while (u === 0) u = Math.random()` settles on. -/
def resampleNonzero (draws : List ℚ) : Option ℚ :=
  draws.find? fun u => u != 0

/-- Box-Muller normal variate (function randn, app.js lines 309-314),
on explicit streams of uniform draws for u and v. -/
noncomputable def randn (us vs : List ℚ) : Option ℝ :=
  match resampleNonzero us, resampleNonzero vs with
  | some u, some v =>
      some (Real.sqrt (-2.0 * Real.log (u : ℝ)) * Real.cos (2.0 * Real.pi * (v : ℝ)))
  | _, _ => none

/-- C9: when every uniform draw lies in [0,1), the resampled u and v
actually used lie in (0,1), the argument of sqrt is nonnegative (the
log(0) branch is unreachable), and randn returns exactly the
Box-Muller value at those resampled draws. -/
theorem C9_no_log_zero (us vs : List ℚ) (u v : ℚ)
    (hus : ∀ x ∈ us, 0 ≤ x ∧ x < 1) (hvs : ∀ x ∈ vs, 0 ≤ x ∧ x < 1)
    (hu : resampleNonzero us = some u) (hv : resampleNonzero vs = some v) :
    (0 < u ∧ u < 1) ∧ (0 < v ∧ v < 1) ∧
    0 ≤ -2.0 * Real.log (u : ℝ) ∧
    randn us vs = some (Real.sqrt (-2.0 * Real.log (u : ℝ)) *
      Real.cos (2.0 * Real.pi * (v : ℝ))) := by
  have hu_mem : u ∈ us := List.mem_of_find?_eq_some hu
  have hv_mem : v ∈ vs := List.mem_of_find?_eq_some hv
  have hu_ne : u ≠ 0 := by
    have h := List.find?_some hu
    simpa using h
  have hv_ne : v ≠ 0 := by
    have h := List.find?_some hv
    simpa using h
  obtain ⟨hu0, hu1⟩ := hus u hu_mem
  obtain ⟨hv0, hv1⟩ := hvs v hv_mem
  have hupos : 0 < u := lt_of_le_of_ne hu0 (Ne.symm hu_ne)
  have hvpos : 0 < v := lt_of_le_of_ne hv0 (Ne.symm hv_ne)
  have hlog : Real.log (u : ℝ) ≤ 0 := by
    apply Real.log_nonpos
    · exact_mod_cast hu0
    · exact_mod_cast le_of_lt hu1
  refine ⟨⟨hupos, hu1⟩, ⟨hvpos, hv1⟩, by linarith, ?_⟩
  unfold randn
  rw [hu, hv]

/-- C9 witness: draw streams [0, 1/2] and [1/4]; the zero draw is
skipped and u = 1/2, v = 1/4 are used. -/
theorem C9_no_log_zero_witness :
    ((0:ℚ) < 1/2 ∧ (1:ℚ)/2 < 1) ∧ ((0:ℚ) < 1/4 ∧ (1:ℚ)/4 < 1) ∧
    0 ≤ -2.0 * Real.log ((1/2 : ℚ) : ℝ) ∧
    randn [0, 1/2] [1/4] = some (Real.sqrt (-2.0 * Real.log ((1/2 : ℚ) : ℝ)) *
      Real.cos (2.0 * Real.pi * ((1/4 : ℚ) : ℝ))) :=
  C9_no_log_zero [0, 1/2] [1/4] (1/2) (1/4)
    (by intro x hx; fin_cases hx <;> norm_num)
    (by intro x hx; fin_cases hx <;> norm_num)
    (by
      unfold resampleNonzero
      rw [List.find?_cons_of_neg _ (by simp)]
      rw [List.find?_cons_of_pos _ (by simp)])
    (by
      unfold resampleNonzero
      rw [List.find?_cons_of_pos _ (by simp)])

/-! ## Unknown-sample handler state changes (app.js lines 484-534) -/

/-- The two calibration points seeded by the unknown-sample handler
when fewer than 2 points exist (app.js lines 489-499): concentrations
0.0 and min(0.6, cmax/2), measured at the current wavelength, with no
_temp flag. -/
noncomputable def seedPoints (lam cmax nu1 nu2 : ℝ) (noiseOn : Bool) : List (CalPoint ℝ) :=
  [⟨0, unknownSeedA lam 0 nu1 noiseOn, false⟩,
   ⟨min 0.6 (cmax / 2), unknownSeedA lam (min 0.6 (cmax / 2)) nu2 noiseOn, false⟩]

/-- The temporary probe point pushed for the unknown sample (app.js
line 511), flagged _temp. -/
noncomputable def unknownProbePoint (lam cUnknown nuP : ℝ) (noiseOn : Bool) : CalPoint ℝ :=
  ⟨cUnknown, unknownProbeA lam cUnknown nuP noiseOn, true⟩

/-- Full effect of one unknown-sample click on calibrationData (app.js
lines 484-513): seed two points when fewer than 2 exist, then push the
temporary probe. -/
noncomputable def unknownAction (data : List (CalPoint ℝ))
    (lam cmax cUnknown nu1 nu2 nuP : ℝ) (noiseOn : Bool) : List (CalPoint ℝ) :=
  let seeded := if data.length < 2 then data ++ seedPoints lam cmax nu1 nu2 noiseOn else data
  seeded ++ [unknownProbePoint lam cUnknown nuP noiseOn]

/-- Deferred removal of the probe (scheduleRemoval, app.js lines
526-533): the splice removes exactly the probe object, which is the
last pushed element. -/
def removeProbe (data : List (CalPoint ℝ)) : List (CalPoint ℝ) :=
  data.dropLast

/-- C10: with fewer than 2 points, the unknown-sample click first
appends two non-temporary seed points at concentrations 0.0 and
min(0.6, cmax/2), then the temporary probe; after the probe is removed
the seeds remain permanently in the calibration set. -/
theorem C10_seeding (data : List (CalPoint ℝ)) (lam cmax cU nu1 nu2 nuP : ℝ)
    (noiseOn : Bool) (h : data.length < 2) :
    unknownAction data lam cmax cU nu1 nu2 nuP noiseOn
      = (data ++ seedPoints lam cmax nu1 nu2 noiseOn)
        ++ [unknownProbePoint lam cU nuP noiseOn] ∧
    ((seedPoints lam cmax nu1 nu2 noiseOn).map fun p => p.c_mM)
      = [0, min 0.6 (cmax / 2)] ∧
    (∀ p ∈ seedPoints lam cmax nu1 nu2 noiseOn, p.temp = false) ∧
    (unknownProbePoint lam cU nuP noiseOn).temp = true ∧
    removeProbe (unknownAction data lam cmax cU nu1 nu2 nuP noiseOn)
      = data ++ seedPoints lam cmax nu1 nu2 noiseOn := by
  have hact : unknownAction data lam cmax cU nu1 nu2 nuP noiseOn
      = (data ++ seedPoints lam cmax nu1 nu2 noiseOn)
        ++ [unknownProbePoint lam cU nuP noiseOn] := by
    unfold unknownAction
    rw [if_pos h]
  refine ⟨hact, rfl, ?_, rfl, ?_⟩
  · intro p hp
    unfold seedPoints at hp
    rcases List.mem_cons.mp hp with rfl | hp2
    · rfl
    · rcases List.mem_cons.mp hp2 with rfl | hp3
      · rfl
      · cases hp3
  · unfold removeProbe
    rw [hact]
    simp

/-- C10 witness: the empty calibration set, wavelength 538, slider max
1 mM, unknown concentration 0.3 mM, noise disabled. -/
theorem C10_seeding_witness :
    unknownAction [] 538 1 0.3 0 0 0 false
      = (([] : List (CalPoint ℝ)) ++ seedPoints 538 1 0 0 false)
        ++ [unknownProbePoint 538 0.3 0 false] ∧
    ((seedPoints 538 1 0 0 false).map fun p => p.c_mM)
      = [0, min 0.6 ((1:ℝ) / 2)] ∧
    (∀ p ∈ seedPoints 538 1 0 0 false, p.temp = false) ∧
    (unknownProbePoint 538 0.3 0 false).temp = true ∧
    removeProbe (unknownAction [] 538 1 0.3 0 0 0 false)
      = ([] : List (CalPoint ℝ)) ++ seedPoints 538 1 0 0 false :=
  C10_seeding [] 538 1 0.3 0 0 0 false (by decide)

end Colorimetry
